import Mathlib

/-!
Verification of the phdrs library: enumeration of loaded ELF objects and
iteration over their program headers. The development shallowly embeds
src/src/lib.rs: program-header memory is a list of records indexed by a
natural-number pointer, the byte memory holding C strings is a list of
naturals, and the platform primitive dl_iterate_phdr is modelled as a
fold over an environment list of transient descriptors.
-/

namespace Phdrs

/-! ### ELF constants (from src/src/lib.rs lines 1-30, values from libc) -/

def PT_NULL : Nat := 0
def PT_LOAD : Nat := 1
def PT_DYNAMIC : Nat := 2
def PT_INTERP : Nat := 3

def PT_NOTE : Nat := 4
def PT_SHLIB : Nat := 5
def PT_PHDR : Nat := 6
def PT_TLS : Nat := 7
def PT_LOOS : Nat := 0x60000000
def PT_HIOS : Nat := 0x6fffffff
def PT_LOPROC : Nat := 0x70000000
def PT_HIPROC : Nat := 0x7fffffff
def PT_GNU_EH_FRAME : Nat := 0x6474e550
def PT_GNU_RELRO : Nat := 0x6474e552

def PF_X : Nat := 1
def PF_W : Nat := 2
def PF_R : Nat := 4
def PF_MASKPROC : Nat := 0xf0000000

/-- One raw ELF program header record (libc Elf64_Phdr). All fields are
fixed-width unsigned integers in the source; modelled as Nat. -/
structure Elf_Phdr where
  p_type : Nat
  p_flags : Nat
  p_offset : Nat
  p_vaddr : Nat
  p_paddr : Nat
  p_filesz : Nat
  p_memsz : Nat
  p_align : Nat
deriving Repr, DecidableEq

/-- One loaded module, copied out of the transient dl_phdr_info inside the
enumeration callback (struct Object, src/src/lib.rs lines 35-44). The name
is an owned copy of the bytes; phdrs is the borrowed pointer. -/
structure Object where
  addr : Nat
  name : List Nat
  phdrs : Nat
  num_phdrs : Nat
deriving Repr, DecidableEq

/-- A borrowed view of one program header: the raw pointer the Rust newtype
ProgramHeader wraps (src/src/lib.rs line 82). -/
structure ProgramHeader where
  ptr : Nat
deriving Repr, DecidableEq

/-- Dereference the raw pointer held by a ProgramHeader, as each unsafe
field read in the accessors does. -/
def ProgramHeader.deref (mem : List Elf_Phdr) (self : ProgramHeader) : Option Elf_Phdr :=
  mem[self.ptr]?

/-- Accessor type_ (src/src/lib.rs lines 86-88): reads p_type. -/
def ProgramHeader.type_ (mem : List Elf_Phdr) (self : ProgramHeader) : Option Nat :=
  (self.deref mem).map Elf_Phdr.p_type

/-- Accessor flags (src/src/lib.rs lines 92-94): reads p_flags. -/
def ProgramHeader.flags (mem : List Elf_Phdr) (self : ProgramHeader) : Option Nat :=
  (self.deref mem).map Elf_Phdr.p_flags

/-- Accessor offset (src/src/lib.rs lines 97-99): reads p_offset. -/
def ProgramHeader.offset (mem : List Elf_Phdr) (self : ProgramHeader) : Option Nat :=
  (self.deref mem).map Elf_Phdr.p_offset

/-- Accessor vaddr (src/src/lib.rs lines 102-104): reads p_vaddr. -/
def ProgramHeader.vaddr (mem : List Elf_Phdr) (self : ProgramHeader) : Option Nat :=
  (self.deref mem).map Elf_Phdr.p_vaddr

/-- Accessor paddr (src/src/lib.rs lines 108-110): reads p_paddr. -/
def ProgramHeader.paddr (mem : List Elf_Phdr) (self : ProgramHeader) : Option Nat :=
  (self.deref mem).map Elf_Phdr.p_paddr

/-- Accessor filesz (src/src/lib.rs lines 113-115): reads p_filesz. -/
def ProgramHeader.filesz (mem : List Elf_Phdr) (self : ProgramHeader) : Option Nat :=
  (self.deref mem).map Elf_Phdr.p_filesz

/-- Accessor memsz (src/src/lib.rs lines 118-120): reads p_memsz. -/
def ProgramHeader.memsz (mem : List Elf_Phdr) (self : ProgramHeader) : Option Nat :=
  (self.deref mem).map Elf_Phdr.p_memsz

/-- Accessor align (src/src/lib.rs lines 123-125): reads p_align. -/
def ProgramHeader.align (mem : List Elf_Phdr) (self : ProgramHeader) : Option Nat :=
  (self.deref mem).map Elf_Phdr.p_align

/-- The iterator state (struct ProgramHeaderIterator, src/src/lib.rs lines
180-183): pointer to the next raw record and how many are left. -/
structure ProgramHeaderIterator where
  ptr : Nat
  num : Nat
deriving Repr, DecidableEq

/-- One call to Iterator::next (src/src/lib.rs lines 188-197). The Rust
method mutates self and returns an Option; modelled as returning the
produced item together with the successor state. -/
def ProgramHeaderIterator.next (self : ProgramHeaderIterator) :
    Option ProgramHeader × ProgramHeaderIterator :=
  if self.num = 0 then
    (none, self)
  else
    (some ⟨self.ptr⟩, ⟨self.ptr + 1, self.num - 1⟩)

/-- Object::iter_phdrs (src/src/lib.rs lines 49-54): a fresh iterator over
the program-header array of the object. -/
def Object.iter_phdrs (self : Object) : ProgramHeaderIterator :=
  { ptr := self.phdrs, num := self.num_phdrs }

/-- Drive an iterator through k calls to next, collecting the items
produced (calls that produce none contribute nothing). Returns the items
and the final iterator state. -/
def drive (it : ProgramHeaderIterator) : Nat → List ProgramHeader × ProgramHeaderIterator
  | 0 => ([], it)
  | k + 1 =>
    match it.next with
    | (none, it2) => ([], it2)
    | (some ph, it2) =>
      let rest := drive it2 k
      (ph :: rest.1, rest.2)

lemma drive_spec (m : Nat) : ∀ it : ProgramHeaderIterator,
    drive it m = ((List.range (min m it.num)).map (fun i => ⟨it.ptr + i⟩),
      ⟨it.ptr + min m it.num, it.num - m⟩) := by
  induction m with
  | zero => intro it; simp [drive]
  | succ k ih =>
    intro it
    rcases it with ⟨p, n⟩
    cases n with
    | zero =>
      simp [drive, ProgramHeaderIterator.next]
    | succ n' =>
      have hstep : drive ⟨p, n' + 1⟩ (k + 1)
          = (ProgramHeader.mk p :: (drive ⟨p + 1, n'⟩ k).1, (drive ⟨p + 1, n'⟩ k).2) := rfl
      rw [hstep, ih]
      have hmin : min (k + 1) (n' + 1) = min k n' + 1 := by omega
      rw [hmin, List.range_succ_eq_map, List.map_cons, List.map_map]
      simp only [Prod.mk.injEq, List.cons.injEq]
      refine ⟨⟨by simp, ?_⟩, ?_⟩
      · apply List.map_congr_left
        intro i _
        simp only [Function.comp_apply]
        congr 1
        omega
      · simp only [ProgramHeaderIterator.mk.injEq]
        omega

lemma drive_fst (m : Nat) (it : ProgramHeaderIterator) :
    (drive it m).1 = (List.range (min m it.num)).map (fun i => ⟨it.ptr + i⟩) := by
  rw [drive_spec]

lemma drive_snd (m : Nat) (it : ProgramHeaderIterator) :
    (drive it m).2 = ⟨it.ptr + min m it.num, it.num - m⟩ := by
  rw [drive_spec]

/-- A sample program-header record used by the concrete witnesses. -/
def phdr0 : Elf_Phdr :=
  { p_type := 1, p_flags := 5, p_offset := 0, p_vaddr := 0x1000,
    p_paddr := 0x1000, p_filesz := 64, p_memsz := 128, p_align := 0x1000 }

/-- A second sample record, placed right after phdr0 in the sample memory. -/
def phdr1 : Elf_Phdr :=
  { p_type := 2, p_flags := 6, p_offset := 512, p_vaddr := 0x2000,
    p_paddr := 0x2000, p_filesz := 32, p_memsz := 32, p_align := 8 }

/-- A sample two-entry program-header memory. -/
def mem0 : List Elf_Phdr := [phdr0, phdr1]

/-- A sample Object whose segment array is mem0. -/
def obj0 : Object := { addr := 0x400000, name := [108, 105, 98], phdrs := 0, num_phdrs := 2 }

/-- C1: an iterator obtained from iter_phdrs yields exactly num_phdrs items
under any number m of calls to next with num_phdrs ≤ m, and once exhausted
the iterator is in a terminal state: next produces none and leaves the
state unchanged, so every further call keeps producing none. -/
theorem iter_phdrs_exact_count_then_terminal_none (o : Object) (m : Nat)
    (h : o.num_phdrs ≤ m) :
    (drive o.iter_phdrs m).1.length = o.num_phdrs ∧
    (drive o.iter_phdrs m).2.next = (none, (drive o.iter_phdrs m).2) := by
  rw [drive_fst, drive_snd]
  constructor
  · simp [Object.iter_phdrs]
    omega
  · have hz : o.iter_phdrs.num - m = 0 := by
      simp [Object.iter_phdrs]
      omega
    rw [hz]
    simp [ProgramHeaderIterator.next]

/-- Witness for C1 at the sample object: 2 segments, 5 calls to next. -/
theorem iter_phdrs_exact_count_then_terminal_none_witness :
    obj0.num_phdrs ≤ 5 ∧
    ((drive obj0.iter_phdrs 5).1.length = obj0.num_phdrs ∧
     (drive obj0.iter_phdrs 5).2.next = (none, (drive obj0.iter_phdrs 5).2)) :=
  ⟨by decide, iter_phdrs_exact_count_then_terminal_none obj0 5 (by decide)⟩

/-- C2: iter_phdrs is a pure function of the Object (the Rust method takes
an immutable borrow, so creating and consuming an iterator cannot mutate
the Object); every fresh iterator starts at the first array entry with the
full count, and any two iterators driven past exhaustion produce the same
sequence of field values, namely the records of the segment array in
order. -/
theorem iter_phdrs_independent_identical_sequences (mem : List Elf_Phdr) (o : Object)
    (m1 m2 : Nat) (h1 : o.num_phdrs ≤ m1) (h2 : o.num_phdrs ≤ m2) :
    (drive o.iter_phdrs m1).1.map (ProgramHeader.deref mem)
      = (drive o.iter_phdrs m2).1.map (ProgramHeader.deref mem) ∧
    (drive o.iter_phdrs m1).1.map (ProgramHeader.deref mem)
      = (List.range o.num_phdrs).map (fun i => mem[o.phdrs + i]?) ∧
    o.iter_phdrs.ptr = o.phdrs ∧ o.iter_phdrs.num = o.num_phdrs := by
  have hchar : ∀ m, o.num_phdrs ≤ m →
      (drive o.iter_phdrs m).1.map (ProgramHeader.deref mem)
        = (List.range o.num_phdrs).map (fun i => mem[o.phdrs + i]?) := by
    intro m hm
    rw [drive_fst]
    have hmin : min m o.iter_phdrs.num = o.num_phdrs := by
      simp [Object.iter_phdrs]
      omega
    rw [hmin, List.map_map]
    apply List.map_congr_left
    intro i _
    simp [ProgramHeader.deref, Object.iter_phdrs]
  exact ⟨(hchar m1 h1).trans (hchar m2 h2).symm, hchar m1 h1, rfl, rfl⟩

/-- Witness for C2 at the sample object with two different drive lengths. -/
theorem iter_phdrs_independent_identical_sequences_witness :
    obj0.num_phdrs ≤ 2 ∧ obj0.num_phdrs ≤ 7 ∧
    ((drive obj0.iter_phdrs 2).1.map (ProgramHeader.deref mem0)
      = (drive obj0.iter_phdrs 7).1.map (ProgramHeader.deref mem0) ∧
    (drive obj0.iter_phdrs 2).1.map (ProgramHeader.deref mem0)
      = (List.range obj0.num_phdrs).map (fun i => mem0[obj0.phdrs + i]?) ∧
    obj0.iter_phdrs.ptr = obj0.phdrs ∧ obj0.iter_phdrs.num = obj0.num_phdrs) :=
  ⟨by decide, by decide,
    iter_phdrs_independent_identical_sequences mem0 obj0 2 7 (by decide) (by decide)⟩

/-- C9: every item yielded by an iterator created from an Object views
entry i of the segment array of the object for some i below the count, and
under the invariant that the stored count matches the real extent of the array
every accessor dereference succeeds. -/
theorem iter_phdrs_items_in_bounds (mem : List Elf_Phdr) (o : Object) (m : Nat)
    (ph : ProgramHeader)
    (hmem : o.phdrs + o.num_phdrs ≤ mem.length)
    (hph : ph ∈ (drive o.iter_phdrs m).1) :
    (∃ i, i < o.num_phdrs ∧ ph.ptr = o.phdrs + i) ∧ (ph.deref mem).isSome := by
  rw [drive_fst] at hph
  rcases List.mem_map.mp hph with ⟨i, hi, rfl⟩
  have hilt : i < o.num_phdrs := by
    have := List.mem_range.mp hi
    simp [Object.iter_phdrs] at this
    omega
  have hptr : o.iter_phdrs.ptr = o.phdrs := rfl
  constructor
  · exact ⟨i, hilt, by rw [hptr]⟩
  · have hlt : o.iter_phdrs.ptr + i < mem.length := by
      rw [hptr]
      omega
    simp [ProgramHeader.deref, List.getElem?_eq_getElem hlt]

/-- Witness for C9: the first item yielded for the sample object. -/
theorem iter_phdrs_items_in_bounds_witness :
    obj0.phdrs + obj0.num_phdrs ≤ mem0.length ∧
    ProgramHeader.mk 0 ∈ (drive obj0.iter_phdrs 2).1 ∧
    ((∃ i, i < obj0.num_phdrs ∧ (ProgramHeader.mk 0).ptr = obj0.phdrs + i) ∧
      ((ProgramHeader.mk 0).deref mem0).isSome) :=
  ⟨by decide, by decide,
    iter_phdrs_items_in_bounds mem0 obj0 2 ⟨0⟩ (by decide) (by decide)⟩

/-! ### Enumeration (objects, src/src/lib.rs lines 201-232) -/

/-- The transient descriptor the loader passes to the callback (libc
dl_phdr_info, the four fields the code reads): base address, pointer into
the byte memory holding the NUL-terminated name, pointer into the
program-header memory, and the number of headers. -/
structure DlPhdrInfo where
  dlpi_addr : Nat
  dlpi_name : Nat
  dlpi_phdr : Nat
  dlpi_phnum : Nat
deriving Repr, DecidableEq

/-- Reading CStr::from_ptr at pointer p in the byte memory and copying it
to owned storage (to_owned): the bytes from p up to but excluding the
first NUL. -/
def readCString (bmem : List Nat) (p : Nat) : List Nat :=
  (bmem.drop p).takeWhile (fun b => b ≠ 0)

/-- push_object (src/src/lib.rs lines 205-216): copies the name bytes into
an owned buffer, takes addr verbatim and the phdr pointer and count as an
uncopied borrow, and appends the Object to the accumulator. -/
def push_object (bmem : List Nat) (objs : List Object) (obj : DlPhdrInfo) : List Object :=
  let name := readCString bmem obj.dlpi_name
  objs ++ [{ addr := obj.dlpi_addr, name := name,
             phdrs := obj.dlpi_phdr, num_phdrs := obj.dlpi_phnum }]

/-- collect_objs (src/src/lib.rs lines 219-226): the C callback. It pushes
the object and returns 0, the code for continue. The returned pair is the
updated accumulator and the C return value. -/
def collect_objs (bmem : List Nat) (info : DlPhdrInfo) (data : List Object) :
    List Object × Int :=
  (push_object bmem data info, 0)

/-- Modelled from the spec: the platform primitive dl_iterate_phdr is not
part of this repository. Per the spec it invokes the callback once per
loaded object, synchronously and in presentation order, passing the
transient descriptor and the opaque data pointer, and it stops the scan
early as soon as a callback returns a nonzero value. -/
def dl_iterate_phdr (bmem : List Nat)
    (cb : List Nat → DlPhdrInfo → List Object → List Object × Int) :
    List DlPhdrInfo → List Object → List Object
  | [], data => data
  | info :: rest, data =>
    let (data2, r) := cb bmem info data
    if r = 0 then dl_iterate_phdr bmem cb rest data2 else data2

/-- objects (src/src/lib.rs lines 201-232): starts from an empty
accumulator and lets the primitive drive collect_objs over every loaded
object described by the environment. -/
def objects (bmem : List Nat) (env : List DlPhdrInfo) : List Object :=
  dl_iterate_phdr bmem collect_objs env []

/-- The Object built from one transient descriptor, as the C3 claim
describes the effect of the callback. -/
def objectOfInfo (bmem : List Nat) (i : DlPhdrInfo) : Object :=
  { addr := i.dlpi_addr, name := readCString bmem i.dlpi_name,
    phdrs := i.dlpi_phdr, num_phdrs := i.dlpi_phnum }

lemma dl_iterate_phdr_collect (bmem : List Nat) :
    ∀ (env : List DlPhdrInfo) (acc : List Object),
      dl_iterate_phdr bmem collect_objs env acc = acc ++ env.map (objectOfInfo bmem) := by
  intro env
  induction env with
  | nil => intro acc; simp [dl_iterate_phdr]
  | cons i rest ih =>
    intro acc
    simp only [dl_iterate_phdr, collect_objs, push_object, List.map_cons]
    rw [if_pos trivial, ih]
    simp [objectOfInfo]

/-- C3: each callback invocation appends exactly one Object, whose base
address is the address field of the descriptor verbatim, whose name is an
owned copy of the bytes referenced by the name pointer of the descriptor, and whose phdrs
pointer and count are stored uncopied; objects returns one Object per
descriptor, in presentation order. -/
theorem objects_one_per_info_in_order (bmem : List Nat) (env : List DlPhdrInfo) :
    objects bmem env = env.map (objectOfInfo bmem) ∧
    (∀ objs info, push_object bmem objs info = objs ++ [objectOfInfo bmem info]) := by
  constructor
  · rw [objects, dl_iterate_phdr_collect]
    simp
  · intro objs info
    rfl

/-- C10: the callback returns 0 (continue) on every invocation, for every
descriptor and accumulator, so the primitive is never told to stop early
and every descriptor in the environment gives rise to an Object. -/
theorem collect_objs_always_continues (bmem : List Nat) (info : DlPhdrInfo)
    (data : List Object) (env : List DlPhdrInfo) :
    (collect_objs bmem info data).2 = 0 ∧
    (objects bmem env).length = env.length := by
  constructor
  · rfl
  · rw [objects, dl_iterate_phdr_collect]
    simp

/-- C4: every accessor performs a single field read from the borrowed
record and returns the raw value unchanged; the record r carries no
constraint at all, so platform- or vendor-specific type and flag codes
pass through exactly like documented ones, with no validation or
interpretation. -/
theorem accessors_return_raw_fields (mem : List Elf_Phdr) (p : Nat) (r : Elf_Phdr)
    (h : mem[p]? = some r) :
    (ProgramHeader.mk p).type_ mem = some r.p_type ∧
    (ProgramHeader.mk p).flags mem = some r.p_flags ∧
    (ProgramHeader.mk p).offset mem = some r.p_offset ∧
    (ProgramHeader.mk p).vaddr mem = some r.p_vaddr ∧
    (ProgramHeader.mk p).paddr mem = some r.p_paddr ∧
    (ProgramHeader.mk p).filesz mem = some r.p_filesz ∧
    (ProgramHeader.mk p).memsz mem = some r.p_memsz ∧
    (ProgramHeader.mk p).align mem = some r.p_align := by
  refine ⟨?_, ?_, ?_, ?_, ?_, ?_, ?_, ?_⟩ <;>
    simp [ProgramHeader.type_, ProgramHeader.flags, ProgramHeader.offset,
      ProgramHeader.vaddr, ProgramHeader.paddr, ProgramHeader.filesz,
      ProgramHeader.memsz, ProgramHeader.align, ProgramHeader.deref, h]

/-- A record carrying a vendor-specific type code and flag bits outside
the documented enumeration, used to witness C4. -/
def phdrVendor : Elf_Phdr :=
  { p_type := 0x60000123, p_flags := 0xf0000008, p_offset := 7, p_vaddr := 11,
    p_paddr := 13, p_filesz := 17, p_memsz := 19, p_align := 23 }

/-- Witness for C4 at a vendor-specific record. -/
theorem accessors_return_raw_fields_witness :
    ([phdrVendor][0]? = some phdrVendor) ∧
    ((ProgramHeader.mk 0).type_ [phdrVendor] = some phdrVendor.p_type ∧
     (ProgramHeader.mk 0).flags [phdrVendor] = some phdrVendor.p_flags ∧
     (ProgramHeader.mk 0).offset [phdrVendor] = some phdrVendor.p_offset ∧
     (ProgramHeader.mk 0).vaddr [phdrVendor] = some phdrVendor.p_vaddr ∧
     (ProgramHeader.mk 0).paddr [phdrVendor] = some phdrVendor.p_paddr ∧
     (ProgramHeader.mk 0).filesz [phdrVendor] = some phdrVendor.p_filesz ∧
     (ProgramHeader.mk 0).memsz [phdrVendor] = some phdrVendor.p_memsz ∧
     (ProgramHeader.mk 0).align [phdrVendor] = some phdrVendor.p_align) :=
  ⟨by decide, accessors_return_raw_fields [phdrVendor] 0 phdrVendor (by decide)⟩

lemma takeWhile_until_zero (bytes post : List Nat) (h : ∀ b ∈ bytes, b ≠ 0) :
    (bytes ++ 0 :: post).takeWhile (fun b => b ≠ 0) = bytes := by
  induction bytes with
  | nil => simp [List.takeWhile]
  | cons b bs ih =>
    have hb : b ≠ 0 := h b (List.mem_cons_self b bs)
    simp only [List.cons_append, List.takeWhile]
    have hbd : (b ≠ 0 : Bool) = true := by simp [hb]
    simp only [hbd]
    have := ih (fun x hx => h x (List.mem_cons_of_mem b hx))
    simp only [List.append_eq] at this ⊢
    rw [this]

lemma readCString_at (pre bytes post : List Nat) (h : ∀ b ∈ bytes, b ≠ 0) :
    readCString (pre ++ bytes ++ 0 :: post) pre.length = bytes := by
  rw [readCString, List.append_assoc, List.drop_left]
  exact takeWhile_until_zero bytes post h

/-- C6: for any name byte content the loader supplies, including the
empty string and bytes that are not valid UTF-8, construction succeeds
and the stored name is exactly those bytes, copied unchanged; the name
accessor (Object name, returning the stored CString content) passes them
through without decoding or alteration. -/
theorem object_name_opaque_bytes (pre bytes post : List Nat) (objs : List Object)
    (info : DlPhdrInfo) (h0 : ∀ b ∈ bytes, b ≠ 0)
    (hp : info.dlpi_name = pre.length) :
    push_object (pre ++ bytes ++ 0 :: post) objs info
      = objs ++ [{ addr := info.dlpi_addr, name := bytes,
                   phdrs := info.dlpi_phdr, num_phdrs := info.dlpi_phnum }] ∧
    ({ addr := info.dlpi_addr, name := bytes, phdrs := info.dlpi_phdr,
       num_phdrs := info.dlpi_phnum : Object }).name = bytes := by
  constructor
  · rw [push_object, hp, readCString_at pre bytes post h0]
  · rfl

/-- Witness for C6 at non-UTF-8 name bytes 0xff 0xfe. -/
theorem object_name_opaque_bytes_witness :
    (∀ b ∈ [255, 254], b ≠ 0) ∧ (DlPhdrInfo.mk 5 1 0 2).dlpi_name = [7].length ∧
    (push_object ([7] ++ [255, 254] ++ 0 :: [9]) [] (DlPhdrInfo.mk 5 1 0 2)
      = [] ++ [{ addr := 5, name := [255, 254], phdrs := 0, num_phdrs := 2 }] ∧
    ({ addr := 5, name := [255, 254], phdrs := 0, num_phdrs := 2 : Object }).name
      = [255, 254]) :=
  ⟨by decide, by decide,
    object_name_opaque_bytes [7] [255, 254] [9] [] (DlPhdrInfo.mk 5 1 0 2)
      (by decide) (by decide)⟩

/-- Modelled from the spec: the platform contract for a supported
platform, which src does not implement (dl_iterate_phdr is external).
The spec states the own module of the calling program is always presented, and
every validly loaded object has a nonzero base address and a nonzero
program-header count. -/
def SupportedPlatformEnv (env : List DlPhdrInfo) : Prop :=
  env ≠ [] ∧ ∀ i ∈ env, i.dlpi_addr ≠ 0 ∧ i.dlpi_phnum ≠ 0

/-- C8: under the platform contract, objects returns at least one Object,
and every returned Object has a nonzero base address and a positive
program-header count. -/
theorem objects_nonempty_all_nonzero (bmem : List Nat) (env : List DlPhdrInfo)
    (h : SupportedPlatformEnv env) :
    1 ≤ (objects bmem env).length ∧
    ∀ o ∈ objects bmem env, o.addr ≠ 0 ∧ 0 < o.num_phdrs := by
  obtain ⟨hne, hall⟩ := h
  have hmap : objects bmem env = env.map (objectOfInfo bmem) := by
    rw [objects, dl_iterate_phdr_collect]
    simp
  rw [hmap]
  constructor
  · rcases env with _ | ⟨i, rest⟩
    · exact absurd rfl hne
    · simp
  · intro o ho
    rcases List.mem_map.mp ho with ⟨i, hi, rfl⟩
    obtain ⟨ha, hn⟩ := hall i hi
    exact ⟨ha, by simpa [objectOfInfo, Nat.pos_iff_ne_zero] using hn⟩

/-- A one-entry sample environment satisfying the platform contract. -/
def env0 : List DlPhdrInfo := [DlPhdrInfo.mk 0x400000 0 0 2]

/-- Witness for C8 at the sample environment. -/
theorem objects_nonempty_all_nonzero_witness :
    SupportedPlatformEnv env0 ∧
    (1 ≤ (objects [0] env0).length ∧
     ∀ o ∈ objects [0] env0, o.addr ≠ 0 ∧ 0 < o.num_phdrs) :=
  ⟨⟨by decide, by decide⟩, objects_nonempty_all_nonzero [0] env0 ⟨by decide, by decide⟩⟩

/-! ### State-passing view of the enumeration, for the frame claim C7 -/

/-- The ambient state objects runs in: the loader environment, the byte
memory, plus module-level global state and a file store, neither of which
any line of objects, collect_objs or push_object reads or writes. -/
structure World where
  env : List DlPhdrInfo
  bmem : List Nat
  globals : List Nat
  files : List (List Nat)
deriving Repr, DecidableEq

/-- collect_objs with the ambient state threaded through explicitly: the
callback reads the byte memory to copy the name and returns the world it
was given, since the source callback writes only through the accumulator
pointer. -/
def collect_objsS (w : World) (info : DlPhdrInfo) (data : List Object) :
    List Object × World × Int :=
  (push_object w.bmem data info, w, 0)

/-- The primitive with the ambient state threaded through each callback
invocation in sequence (modelled from the spec, as for dl_iterate_phdr). -/
def dl_iterate_phdrS
    (cb : World → DlPhdrInfo → List Object → List Object × World × Int) :
    World → List DlPhdrInfo → List Object → List Object × World
  | w, [], data => (data, w)
  | w, info :: rest, data =>
    let r := cb w info data
    if r.2.2 = 0 then dl_iterate_phdrS cb r.2.1 rest r.1 else (r.1, r.2.1)

/-- objects with ambient state: scans the environment recorded in the
world, starting from an empty accumulator. -/
def objectsS (w : World) : List Object × World :=
  dl_iterate_phdrS collect_objsS w w.env []

lemma dl_iterate_phdrS_frame :
    ∀ (env : List DlPhdrInfo) (w : World) (acc : List Object),
      dl_iterate_phdrS collect_objsS w env acc
        = (dl_iterate_phdr w.bmem collect_objs env acc, w) := by
  intro env
  induction env with
  | nil => intro w acc; rfl
  | cons i rest ih =>
    intro w acc
    simp only [dl_iterate_phdrS, collect_objsS, dl_iterate_phdr, collect_objs]
    rw [if_pos trivial, if_pos trivial, ih]

/-- C7: the enumeration has no observable effect outside its returned
sequence: run in an ambient world carrying global state and a file store,
it returns the world exactly as it was given, every callback invocation
included, and its result is the same pure function of the environment and
byte memory; the accumulator is the only state threaded through the
callbacks. -/
theorem objects_no_side_effects (w : World) :
    (objectsS w).2 = w ∧ (objectsS w).1 = objects w.bmem w.env := by
  rw [objectsS, dl_iterate_phdrS_frame, objects]
  exact ⟨rfl, rfl⟩

/-! ### Debug rendering (impl Debug for ProgramHeader, src/src/lib.rs lines 128-175) -/

/-- The type-code match in the Debug impl (src/src/lib.rs lines 132-149):
known codes map to their symbolic names, everything else to "other". -/
def type_str (t : Nat) : String :=
  if t = PT_NULL then "PT_NULL"
  else if t = PT_LOAD then "PT_LOAD"
  else if t = PT_DYNAMIC then "PT_DYNAMIC"
  else if t = PT_INTERP then "PT_INTERP"
  else if t = PT_NOTE then "PT_NOTE"
  else if t = PT_SHLIB then "PT_SHLIB"
  else if t = PT_PHDR then "PT_PHDR"
  else if t = PT_TLS then "PT_TLS"
  else if t = PT_LOOS then "PT_LOOS"
  else if t = PT_HIOS then "PT_HIOS"
  else if t = PT_LOPROC then "PT_LOPROC"
  else if t = PT_HIPROC then "PT_HIPROC"
  else if t = PT_GNU_EH_FRAME then "PT_GNU_EH_FRAME"
  else if t = PT_GNU_RELRO then "PT_GNU_RELRO"
  else "other"

/-- The flag decomposition in the Debug impl (src/src/lib.rs lines
152-165): each set bit among PF_X, PF_W, PF_R, PF_MASKPROC pushes its
name, in that order. -/
def flag_strs (flags : Nat) : List String :=
  let l : List String := []
  let l := if flags &&& PF_X != 0 then l ++ ["PF_X"] else l
  let l := if flags &&& PF_W != 0 then l ++ ["PF_W"] else l
  let l := if flags &&& PF_R != 0 then l ++ ["PF_R"] else l
  let l := if flags &&& PF_MASKPROC != 0 then l ++ ["PF_MASKPROC"] else l
  l

/-- Lowercase hexadecimal rendering, the model of the Rust x format. -/
def hexStr (n : Nat) : String :=
  String.mk (Nat.toDigits 16 n)

/-- The Debug rendering of a ProgramHeader (src/src/lib.rs lines
129-174), built by the same sequence of push_str steps; each accessor the
impl calls dereferences the same borrowed record. -/
def ProgramHeader.fmt (mem : List Elf_Phdr) (self : ProgramHeader) : Option String :=
  (self.deref mem).map (fun r =>
    let to_write := "ProgramHeader("
    let to_write := to_write ++ "typ=" ++ toString r.p_type ++ " (" ++ type_str r.p_type ++ "), "
    let to_write := to_write ++ "flags=<" ++ String.intercalate "|" (flag_strs r.p_flags) ++ ">, "
    let to_write := to_write ++ "offset=<0x" ++ hexStr r.p_offset ++ ">, "
    let to_write := to_write ++ "vaddr=<0x" ++ hexStr r.p_vaddr ++ ">, "
    let to_write := to_write ++ "paddr=<0x" ++ hexStr r.p_paddr ++ ">, "
    to_write ++ "align=<0x" ++ hexStr r.p_align ++ ">)")

/-- Two records identical except in p_filesz and p_memsz, used to show the
rendering never reads those fields. -/
def phdrA : Elf_Phdr :=
  { p_type := 1, p_flags := 4, p_offset := 255, p_vaddr := 0, p_paddr := 0,
    p_filesz := 1, p_memsz := 1, p_align := 0 }

/-- Same as phdrA apart from the two size fields. -/
def phdrB : Elf_Phdr :=
  { p_type := 1, p_flags := 4, p_offset := 255, p_vaddr := 0, p_paddr := 0,
    p_filesz := 2, p_memsz := 2, p_align := 0 }

/-- C5 counterexample: the rendering of phdrA and phdrB coincides even
though their file sizes and memory sizes differ, so the rendering covers
neither size field; and the file offset 255 is rendered as the
hexadecimal 0xff, not in decimal, as the full output string at phdrA
shows. -/
theorem debug_ignores_sizes_and_renders_offset_hex :
    (ProgramHeader.mk 0).fmt [phdrA] = (ProgramHeader.mk 0).fmt [phdrB] ∧
    phdrA.p_filesz ≠ phdrB.p_filesz ∧ phdrA.p_memsz ≠ phdrB.p_memsz ∧
    (ProgramHeader.mk 0).fmt [phdrA] = some
      "ProgramHeader(typ=1 (PT_LOAD), flags=<PF_R>, offset=<0xff>, vaddr=<0x0>, paddr=<0x0>, align=<0x0>)" := by
  refine ⟨?_, by decide, by decide, ?_⟩ <;> decide

/-- The table of documented segment-type codes and their symbolic names,
as the amended rendering contract lists them. -/
def knownTypeNames : List (Nat × String) :=
  [(PT_NULL, "PT_NULL"), (PT_LOAD, "PT_LOAD"), (PT_DYNAMIC, "PT_DYNAMIC"),
   (PT_INTERP, "PT_INTERP"), (PT_NOTE, "PT_NOTE"), (PT_SHLIB, "PT_SHLIB"),
   (PT_PHDR, "PT_PHDR"), (PT_TLS, "PT_TLS"), (PT_LOOS, "PT_LOOS"),
   (PT_HIOS, "PT_HIOS"), (PT_LOPROC, "PT_LOPROC"), (PT_HIPROC, "PT_HIPROC"),
   (PT_GNU_EH_FRAME, "PT_GNU_EH_FRAME"), (PT_GNU_RELRO, "PT_GNU_RELRO")]

/-- Best-effort symbolic name lookup with the generic fallback, the
wording of the amended contract for the type-code rendering. -/
def specTypeName (t : Nat) : String :=
  (knownTypeNames.lookup t).getD "other"

/-- The flag bits and their names, in rendering order. -/
def flagBitNames : List (Nat × String) :=
  [(PF_X, "PF_X"), (PF_W, "PF_W"), (PF_R, "PF_R"), (PF_MASKPROC, "PF_MASKPROC")]

/-- The named permission bits set in a flags bitfield, the amended
wording of the amended contract for the flag decomposition. -/
def specFlagNames (f : Nat) : List String :=
  (flagBitNames.filter (fun pr => f &&& pr.1 != 0)).map Prod.snd

/-- The rendering the amended contract describes: decimal type code with
symbolic name or fallback, flag names joined by a bar, and offset,
virtual address, physical address and alignment in hexadecimal; file size
and memory size do not appear. -/
def specRender (r : Elf_Phdr) : String :=
  "ProgramHeader(typ=" ++ toString r.p_type ++ " (" ++ specTypeName r.p_type
    ++ "), flags=<" ++ String.intercalate "|" (specFlagNames r.p_flags)
    ++ ">, offset=<0x" ++ hexStr r.p_offset ++ ">, vaddr=<0x" ++ hexStr r.p_vaddr
    ++ ">, paddr=<0x" ++ hexStr r.p_paddr ++ ">, align=<0x" ++ hexStr r.p_align ++ ">)"

lemma specTypeName_eq_type_str (t : Nat) : specTypeName t = type_str t := by
  rcases eq_or_ne t PT_NULL with rfl | h1
  · decide
  rcases eq_or_ne t PT_LOAD with rfl | h2
  · decide
  rcases eq_or_ne t PT_DYNAMIC with rfl | h3
  · decide
  rcases eq_or_ne t PT_INTERP with rfl | h4
  · decide
  rcases eq_or_ne t PT_NOTE with rfl | h5
  · decide
  rcases eq_or_ne t PT_SHLIB with rfl | h6
  · decide
  rcases eq_or_ne t PT_PHDR with rfl | h7
  · decide
  rcases eq_or_ne t PT_TLS with rfl | h8
  · decide
  rcases eq_or_ne t PT_LOOS with rfl | h9
  · decide
  rcases eq_or_ne t PT_HIOS with rfl | h10
  · decide
  rcases eq_or_ne t PT_LOPROC with rfl | h11
  · decide
  rcases eq_or_ne t PT_HIPROC with rfl | h12
  · decide
  rcases eq_or_ne t PT_GNU_EH_FRAME with rfl | h13
  · decide
  rcases eq_or_ne t PT_GNU_RELRO with rfl | h14
  · decide
  have e1 : (t == PT_NULL) = false := by simp [h1]
  have e2 : (t == PT_LOAD) = false := by simp [h2]
  have e3 : (t == PT_DYNAMIC) = false := by simp [h3]
  have e4 : (t == PT_INTERP) = false := by simp [h4]
  have e5 : (t == PT_NOTE) = false := by simp [h5]
  have e6 : (t == PT_SHLIB) = false := by simp [h6]
  have e7 : (t == PT_PHDR) = false := by simp [h7]
  have e8 : (t == PT_TLS) = false := by simp [h8]
  have e9 : (t == PT_LOOS) = false := by simp [h9]
  have e10 : (t == PT_HIOS) = false := by simp [h10]
  have e11 : (t == PT_LOPROC) = false := by simp [h11]
  have e12 : (t == PT_HIPROC) = false := by simp [h12]
  have e13 : (t == PT_GNU_EH_FRAME) = false := by simp [h13]
  have e14 : (t == PT_GNU_RELRO) = false := by simp [h14]
  simp [specTypeName, knownTypeNames, List.lookup, type_str,
    e1, e2, e3, e4, e5, e6, e7, e8, e9, e10, e11, e12, e13, e14,
    h1, h2, h3, h4, h5, h6, h7, h8, h9, h10, h11, h12, h13, h14]

lemma specFlagNames_eq_flag_strs (f : Nat) : specFlagNames f = flag_strs f := by
  simp only [specFlagNames, flagBitNames, flag_strs, List.filter]
  cases hx : f &&& PF_X != 0 <;> cases hw : f &&& PF_W != 0 <;>
    cases hr : f &&& PF_R != 0 <;> cases hm : f &&& PF_MASKPROC != 0 <;>
    simp [hx, hw, hr, hm]

/-- C5 amended: the rendering maps known type codes to symbolic names
with the generic fallback "other" for unrecognized codes, decomposes the
flags bitfield into the execute, write and read permission bits plus the
processor-specific-mask bit joined by a bar, renders the type code in
decimal and the offset, virtual address, physical address and alignment
in hexadecimal, and does not render the file size or memory size fields;
it covers this field set for every input record. -/
theorem phdr_debug_rendering (mem : List Elf_Phdr) (p : Nat) (r : Elf_Phdr)
    (h : mem[p]? = some r) :
    (ProgramHeader.mk p).fmt mem = some (specRender r) ∧
    (∀ t, t ∉ knownTypeNames.map Prod.fst → type_str t = "other") := by
  constructor
  · simp only [ProgramHeader.fmt, ProgramHeader.deref, h, Option.map_some]
    refine congrArg some ?_
    rw [specRender, specTypeName_eq_type_str, specFlagNames_eq_flag_strs]
    apply String.ext
    simp [String.data_append, List.append_assoc]
  · intro t ht
    simp only [knownTypeNames, List.map_cons, List.map_nil, List.mem_cons,
      List.mem_singleton, not_or] at ht
    obtain ⟨n1, n2, n3, n4, n5, n6, n7, n8, n9, n10, n11, n12, n13, n14⟩ := ht
    simp [type_str, n1, n2, n3, n4, n5, n6, n7, n8, n9, n10, n11, n12, n13, n14]

/-- Witness for the amended C5 at the sample record phdr0. -/
theorem phdr_debug_rendering_witness :
    (mem0[0]? = some phdr0) ∧
    ((ProgramHeader.mk 0).fmt mem0 = some (specRender phdr0) ∧
     (∀ t, t ∉ knownTypeNames.map Prod.fst → type_str t = "other")) :=
  ⟨by decide, phdr_debug_rendering mem0 0 phdr0 (by decide)⟩

end Phdrs
